import Mathlib

/-!
Verification of the newsbot news-selection and deduplication pipeline.

Each definition below is a shallow embedding of a function of the repository,
translated statement by statement from the JavaScript source:

* `DataManager` (seen-item store): `src/core/DataManager.js`
* `SimilarityChecker` (similarity index): `src/utils/SimilarityChecker.js`
* `EmbeddingService.cosineSimilarity`: `src/services/EmbeddingService.js`
* `MarketauxEndpoint` (quota + language filter): `src/endpoints/MarketauxEndpoint.js`
* `RedditEndpoint` (URL denylist): `src/endpoints/RedditEndpoint.js`
* `NewsBot` scheduler (weighted pick + adaptive interval): `src/core/NewsBot.js`

JavaScript `Map` objects are modelled as association lists in insertion order
(`Map.set` replaces the value at the first matching key in place, otherwise
appends).  JavaScript numbers are modelled as `ℚ` (the claims under study do
not depend on floating-point rounding), except for the cosine-similarity
computation, which needs `Real.sqrt` and is modelled over `ℝ`.  Absent /
falsy-string fields are modelled as `Option String` (`none` = absent or empty).
Wall-clock reads (`Date.now()`) become explicit `now` parameters.
-/

/-! ## JavaScript string primitives (ASCII-faithful models) -/

/-- Model of JavaScript `String.prototype.toLowerCase` (ASCII range). -/
def jsToLowerCase (s : String) : String := ⟨s.data.map Char.toLower⟩

/-- `listContains needle hay`: does `needle` occur as a contiguous sublist? -/
def listContains (needle : List Char) : List Char → Bool
  | [] => needle.isEmpty
  | c :: rest => needle.isPrefixOf (c :: rest) || listContains needle rest

/-- Model of JavaScript `String.prototype.includes`. -/
def strIncludes (hay needle : String) : Bool := listContains needle.data hay.data

/-- Model of JavaScript `String.prototype.startsWith`. -/
def strStartsWith (hay needle : String) : Bool := needle.data.isPrefixOf hay.data

/-- Model of JavaScript `String.prototype.trim`. -/
def jsTrim (s : String) : String :=
  ⟨((s.data.dropWhile Char.isWhitespace).reverse.dropWhile Char.isWhitespace).reverse⟩

/-! ## JavaScript `Map` as an association list -/

/-- `Map.prototype.set`: replace the value at the first matching key in place,
otherwise append at the end (JS maps preserve insertion order). -/
def mapSet {β : Type} (m : List (String × β)) (k : String) (v : β) : List (String × β) :=
  match m with
  | [] => [(k, v)]
  | (k', v') :: rest => if k' = k then (k', v) :: rest else (k', v') :: mapSet rest k v

/-- `Map.prototype.get` (first matching key). -/
def mapGet? {β : Type} (m : List (String × β)) (k : String) : Option β :=
  (m.find? (fun p => p.1 == k)).map Prod.snd

/-- `Map.prototype.has`. -/
def mapHas {β : Type} (m : List (String × β)) (k : String) : Bool :=
  m.any (fun p => p.1 == k)

/-! ## DataManager (seen-item store), from `src/core/DataManager.js` -/

/-- Per-endpoint seen-item map: `itemId -> timestamp` (epoch seconds). -/
abbrev SeenMap := List (String × ℚ)

/-- In-memory state of `DataManager` (the persisted CSV files mirror
`seenItems` write-through; persistence is outside the claims under study). -/
structure DataManagerState where
  seenItems : List (String × SeenMap)
  retentionPeriods : List (String × ℚ)
deriving Repr

/-- `DataManager.setRetentionPeriod(endpointName, seconds)`. -/
def setRetentionPeriod (s : DataManagerState) (endpointName : String) (seconds : ℚ) :
    DataManagerState :=
  { s with retentionPeriods := mapSet s.retentionPeriods endpointName seconds }

/-- `DataManager.getRetentionPeriod(endpointName)`: stored value or the
24-hour default. -/
def getRetentionPeriod (s : DataManagerState) (endpointName : String) : ℚ :=
  (mapGet? s.retentionPeriods endpointName).getD (24 * 60 * 60)

/-- `DataManager.hasSeenItem(endpointName, itemId)`: pure map membership,
no timestamp comparison (`seenItemsMap ? seenItemsMap.has(itemId) : false`). -/
def hasSeenItem (s : DataManagerState) (endpointName itemId : String) : Bool :=
  (mapGet? s.seenItems endpointName).elim false (fun m => mapHas m itemId)

/-- `DataManager.markItemAsSeen(endpointName, itemId)`: create the per-endpoint
map if absent, then set `itemId -> now` (now = `Date.now() / 1000`). -/
def markItemAsSeen (s : DataManagerState) (endpointName itemId : String) (now : ℚ) :
    DataManagerState :=
  let m := (mapGet? s.seenItems endpointName).getD []
  { s with seenItems := mapSet s.seenItems endpointName (mapSet m itemId now) }

/-- `DataManager.cleanupOldItems(endpointName)`: delete every entry with
`now - timestamp > retentionPeriod`.  In the source this runs only from
`loadSeenItems` (i.e. at startup). -/
def cleanupOldItems (s : DataManagerState) (endpointName : String) (now : ℚ) :
    DataManagerState :=
  (mapGet? s.seenItems endpointName).elim s (fun m =>
    let survivors := m.filter (fun p => ¬(now - p.2 > getRetentionPeriod s endpointName))
    { s with seenItems := mapSet s.seenItems endpointName survivors })

/-! ### Association-list lemmas -/

theorem mapGet?_mapSet_self {β : Type} (m : List (String × β)) (k : String) (v : β) :
    mapGet? (mapSet m k v) k = some v := by
  induction m with
  | nil => simp [mapSet, mapGet?]
  | cons p rest ih =>
    obtain ⟨k', v'⟩ := p
    by_cases h : k' = k
    · simp [mapSet, mapGet?, h]
    · simpa [mapSet, mapGet?, List.find?, h] using ih

theorem mapHas_eq_isSome_mapGet? {β : Type} (m : List (String × β)) (k : String) :
    mapHas m k = (mapGet? m k).isSome := by
  induction m with
  | nil => simp [mapHas, mapGet?]
  | cons p rest ih =>
    obtain ⟨k', v'⟩ := p
    cases h : (k' == k) with
    | true => simp [mapHas, mapGet?, List.find?, h]
    | false => simpa [mapHas, mapGet?, List.find?, h] using ih

theorem mapHas_mapSet_self {β : Type} (m : List (String × β)) (k : String) (v : β) :
    mapHas (mapSet m k v) k = true := by
  rw [mapHas_eq_isSome_mapGet?, mapGet?_mapSet_self]
  rfl

/-- Keys are unchanged by `mapSet` at an existing position, or get `k`
appended; in particular every entry of `mapSet m k v` is either `(k, v)` or an
entry of `m` with key different from `k` — provided keys of `m` are nodup. -/
theorem mem_mapSet_of_keys_nodup {β : Type} {m : List (String × β)} {k : String} {v : β}
    (hnd : (m.map Prod.fst).Nodup) :
    ∀ p ∈ mapSet m k v, p = (k, v) ∨ (p ∈ m ∧ p.1 ≠ k) := by
  induction m with
  | nil => intro p hp; simp [mapSet] at hp; left; simpa using hp
  | cons q rest ih =>
    obtain ⟨k', v'⟩ := q
    simp only [List.map_cons, List.nodup_cons] at hnd
    intro p hp
    by_cases h : k' = k
    · subst h
      simp only [mapSet, if_pos rfl] at hp
      rcases List.mem_cons.mp hp with h1 | h1
      · left; simpa using h1
      · right
        refine ⟨List.mem_cons_of_mem _ h1, ?_⟩
        intro hk
        exact hnd.1 (hk ▸ List.mem_map_of_mem Prod.fst h1)
    · simp only [mapSet, if_neg h] at hp
      rcases List.mem_cons.mp hp with h1 | h1
      · right
        exact ⟨h1 ▸ List.mem_cons_self _ _, by simp [h1, h]⟩
      · rcases ih hnd.2 p h1 with h2 | h2
        · exact Or.inl h2
        · exact Or.inr ⟨List.mem_cons_of_mem _ h2.1, h2.2⟩

theorem mapHas_filter_false {β : Type} (m : List (String × β)) (k : String)
    (pred : String × β → Bool)
    (h : ∀ p ∈ m, p.1 = k → pred p = false) :
    mapHas (m.filter pred) k = false := by
  simp only [mapHas, List.any_eq_false]
  intro p hp
  have hm := List.mem_of_mem_filter hp
  have hpred := List.of_mem_filter hp
  intro hk
  have : pred p = false := h p hm (by simpa using hk)
  rw [this] at hpred
  exact Bool.false_ne_true hpred

/-! ## Claim C1 -/

/-- C1 counterexample: `hasSeenItem` consults only map membership, never the
clock.  With retention 100 s, an item marked at `t = 0` still reports seen at
`now = 200` (age 200 > 100, the retention window has elapsed), because
`cleanupOldItems` runs only from `loadSeenItems` at startup and no cleanup has
intervened.  The claim "after the retention window has elapsed
`hasSeenItem(source, id)` returns false" is therefore false as stated. -/
theorem c1_hasSeenItem_true_after_window :
    hasSeenItem
      (markItemAsSeen (setRetentionPeriod ⟨[], []⟩ "reddit" 100) "reddit" "a1" 0)
      "reddit" "a1" = true
    ∧ getRetentionPeriod
        (markItemAsSeen (setRetentionPeriod ⟨[], []⟩ "reddit" 100) "reddit" "a1" 0)
        "reddit" < 200 - 0 := by
  constructor
  · decide
  · show (100 : ℚ) < 200 - 0
    norm_num

/-- C1 (amended): after `markItemAsSeen(source, id)` at time `t`,
`hasSeenItem(source, id)` is true; it stays true across a `cleanupOldItems`
call at any time `t'` with age `t' - t` within the retention period, and a
`cleanupOldItems` call at a time `t'` with `t' - t` beyond the retention
period removes the record, after which `hasSeenItem` returns false.  Absent a
cleanup call (the code runs one only when loading at startup), `hasSeenItem`
keeps returning true regardless of elapsed time. -/
theorem c1_seen_retention (s : DataManagerState) (name itemId : String) (t t' : ℚ)
    (hnd : ((((mapGet? s.seenItems name).getD []).map Prod.fst).Nodup)) :
    hasSeenItem (markItemAsSeen s name itemId t) name itemId = true
    ∧ (t' - t ≤ getRetentionPeriod s name →
        hasSeenItem (cleanupOldItems (markItemAsSeen s name itemId t) name t')
          name itemId = true)
    ∧ (t' - t > getRetentionPeriod s name →
        hasSeenItem (cleanupOldItems (markItemAsSeen s name itemId t) name t')
          name itemId = false) := by
  have hmemSet : ∀ (mm : SeenMap), (itemId, t) ∈ mapSet mm itemId t := by
    intro mm
    induction mm with
    | nil => simp [mapSet]
    | cons q rest ih =>
      obtain ⟨k', v'⟩ := q
      by_cases h : k' = itemId
      · subst h; simp [mapSet]
      · simp only [mapSet, if_neg h]
        exact List.mem_cons_of_mem _ ih
  set m : SeenMap := (mapGet? s.seenItems name).getD [] with hm
  have hget : mapGet? (markItemAsSeen s name itemId t).seenItems name
      = some (mapSet m itemId t) := mapGet?_mapSet_self _ _ _
  have hseenClean : hasSeenItem (cleanupOldItems (markItemAsSeen s name itemId t) name t')
      name itemId
      = mapHas ((mapSet m itemId t).filter
          (fun p => ¬(t' - p.2 > getRetentionPeriod s name))) itemId := by
    unfold cleanupOldItems hasSeenItem
    rw [hget]
    simp only [Option.elim]
    rw [show getRetentionPeriod (markItemAsSeen s name itemId t) name
        = getRetentionPeriod s name from rfl]
    rw [mapGet?_mapSet_self]
  refine ⟨?_, ?_, ?_⟩
  · unfold hasSeenItem
    rw [hget]
    exact mapHas_mapSet_self _ _ _
  · intro hage
    rw [hseenClean, mapHas_eq_isSome_mapGet?]
    have hmem : (((mapSet m itemId t).filter
        (fun p => ¬(t' - p.2 > getRetentionPeriod s name))).find?
        (fun p => p.1 == itemId)).isSome := by
      apply List.find?_isSome.mpr
      refine ⟨(itemId, t), ?_, by simp⟩
      apply List.mem_filter.mpr
      exact ⟨hmemSet m, by simp; linarith⟩
    simpa [mapGet?] using hmem
  · intro hage
    rw [hseenClean]
    apply mapHas_filter_false
    intro p hp hpk
    rcases mem_mapSet_of_keys_nodup hnd p hp with h1 | h1
    · subst h1
      simp only [decide_eq_false_iff_not, not_not]
      linarith
    · exact absurd hpk h1.2

/-- C1 witness: concrete store with retention 100 s; item marked at `t = 0`
is seen, survives a cleanup at `t' = 50`, and is gone after a cleanup at
`t' = 200`. -/
theorem c1_seen_retention_witness :
    hasSeenItem
      (markItemAsSeen (setRetentionPeriod ⟨[], []⟩ "reddit" 100) "reddit" "a1" 0)
      "reddit" "a1" = true
    ∧ hasSeenItem
        (cleanupOldItems
          (markItemAsSeen (setRetentionPeriod ⟨[], []⟩ "reddit" 100) "reddit" "a1" 0)
          "reddit" 50) "reddit" "a1" = true
    ∧ hasSeenItem
        (cleanupOldItems
          (markItemAsSeen (setRetentionPeriod ⟨[], []⟩ "reddit" 100) "reddit" "a1" 0)
          "reddit" 200) "reddit" "a1" = false :=
  ⟨(c1_seen_retention (setRetentionPeriod ⟨[], []⟩ "reddit" 100) "reddit" "a1" 0 50
      (by decide)).1,
   (c1_seen_retention (setRetentionPeriod ⟨[], []⟩ "reddit" 100) "reddit" "a1" 0 50
      (by decide)).2.1
      (by norm_num [setRetentionPeriod, getRetentionPeriod, mapGet?, mapSet, List.find?]),
   (c1_seen_retention (setRetentionPeriod ⟨[], []⟩ "reddit" 100) "reddit" "a1" 0 200
      (by decide)).2.2
      (by norm_num [setRetentionPeriod, getRetentionPeriod, mapGet?, mapSet, List.find?])⟩

/-! ## SimilarityChecker, from `src/utils/SimilarityChecker.js` -/

/-- One value of the `recentHeadlines` map: `{ embedding, timestamp }`.
The embedding type is kept abstract (`α`); the checker never inspects it
while pruning. -/
structure HeadlineData (α : Type) where
  embedding : α
  timestamp : ℚ

/-- `this.recentHeadlines`: headline text -> `{ embedding, timestamp }`. -/
abbrev HeadlineMap (α : Type) := List (String × HeadlineData α)

/-- The checker's `options` (constructor defaults: 0.85 / 500 / 48). -/
structure SimilarityOptions where
  similarityThreshold : ℝ
  maxHistorySize : ℕ
  retentionHours : ℚ

/-- `SimilarityChecker.pruneOldHeadlines()`: first delete entries older than
the retention window (`timestamp < cutoffTime`), then, if the map still
exceeds `maxHistorySize`, sort the entries by timestamp ascending and delete
the oldest `size - maxHistorySize` by headline key. -/
def pruneOldHeadlines {α : Type} (recentHeadlines : HeadlineMap α)
    (opts : SimilarityOptions) (now : ℚ) : HeadlineMap α :=
  let cutoffTime := now - opts.retentionHours * 60 * 60
  let afterAge := recentHeadlines.filter (fun p => ¬(p.2.timestamp < cutoffTime))
  if opts.maxHistorySize < afterAge.length then
    let entries := afterAge.mergeSort (fun a b => a.2.timestamp ≤ b.2.timestamp)
    let toDelete := entries.take (afterAge.length - opts.maxHistorySize)
    toDelete.foldl (fun acc p => acc.eraseP (fun q => q.1 == p.1)) afterAge
  else afterAge

/-! ### Lemmas about the delete-by-key fold -/

theorem foldl_eraseP_sublist {γ : Type} (del : List (String × γ)) :
    ∀ acc : List (String × γ),
      (del.foldl (fun acc p => acc.eraseP (fun q => q.1 == p.1)) acc).Sublist acc := by
  induction del with
  | nil => intro acc; exact List.Sublist.refl acc
  | cons d rest ih =>
    intro acc
    exact (ih (acc.eraseP (fun q => q.1 == d.1))).trans (List.eraseP_sublist acc)

theorem mem_eraseP_of_pred_false {γ : Type} {pred : γ → Bool} {q : γ} :
    ∀ {l : List γ}, q ∈ l → pred q = false → q ∈ l.eraseP pred := by
  intro l
  induction l with
  | nil => intro h; exact absurd h (List.not_mem_nil q)
  | cons a rest ih =>
    intro hq hpred
    cases hpa : pred a with
    | true =>
      rw [List.eraseP_cons_of_pos hpa]
      rcases List.mem_cons.mp hq with h | h
      · subst h; rw [hpred] at hpa; exact absurd hpa (by simp)
      · exact h
    | false =>
      rw [List.eraseP_cons_of_neg (by simp [hpa])]
      rcases List.mem_cons.mp hq with h | h
      · exact h ▸ List.mem_cons_self _ _
      · exact List.mem_cons_of_mem _ (ih h hpred)

theorem foldl_eraseP_length {γ : Type} :
    ∀ (del acc : List (String × γ)),
      (del.map Prod.fst).Nodup → (acc.map Prod.fst).Nodup →
      (∀ p ∈ del, p.1 ∈ acc.map Prod.fst) →
      (del.foldl (fun acc p => acc.eraseP (fun q => q.1 == p.1)) acc).length
        = acc.length - del.length := by
  intro del
  induction del with
  | nil => intro acc _ _ _; simp
  | cons d rest ih =>
    intro acc hdel hacc hsub
    simp only [List.map_cons, List.nodup_cons] at hdel
    obtain ⟨q, hqmem, hqkey⟩ := List.mem_map.mp (hsub d (List.mem_cons_self d rest))
    have herase : (acc.eraseP (fun q => q.1 == d.1)).length = acc.length - 1 :=
      List.length_eraseP_of_mem hqmem (by simp [hqkey])
    have hacc' : ((acc.eraseP (fun q => q.1 == d.1)).map Prod.fst).Nodup :=
      hacc.sublist ((List.eraseP_sublist acc).map Prod.fst)
    have hsub' : ∀ p ∈ rest, p.1 ∈ (acc.eraseP (fun q => q.1 == d.1)).map Prod.fst := by
      intro p hp
      obtain ⟨r, hrmem, hrkey⟩ :=
        List.mem_map.mp (hsub p (List.mem_cons_of_mem d hp))
      have hne : p.1 ≠ d.1 := by
        intro he
        exact hdel.1 (he ▸ List.mem_map_of_mem Prod.fst hp)
      have : r ∈ acc.eraseP (fun q => q.1 == d.1) :=
        mem_eraseP_of_pred_false hrmem (by simp [hrkey, hne])
      exact hrkey ▸ List.mem_map_of_mem Prod.fst this
    have hlen1 : 1 ≤ acc.length := List.length_pos.mpr (by rintro rfl; simp at hqmem)
    rw [List.foldl_cons, ih _ hdel.2 hacc' hsub', herase, List.length_cons,
      Nat.sub_sub, Nat.add_comm]

/-! ## Claim C2 -/

/-- C2: after `pruneOldHeadlines`, the stored headline count is at most
`maxHistorySize`, and no surviving record's age (`now - recordedAt`) exceeds
the retention window `retentionHours` (in hours, i.e. `retentionHours * 3600`
seconds).  The hypothesis that headline keys are distinct is the JS `Map`
invariant. -/
theorem c2_prune_bounds {α : Type} (m : HeadlineMap α) (opts : SimilarityOptions)
    (now : ℚ) (hnd : (m.map Prod.fst).Nodup) :
    (pruneOldHeadlines m opts now).length ≤ opts.maxHistorySize
    ∧ ∀ p ∈ pruneOldHeadlines m opts now,
        now - p.2.timestamp ≤ opts.retentionHours * 60 * 60 := by
  unfold pruneOldHeadlines
  set cutoffTime := now - opts.retentionHours * 60 * 60 with hcut
  set afterAge := m.filter (fun p => ¬(p.2.timestamp < cutoffTime)) with hafter
  have hage : ∀ p ∈ afterAge, now - p.2.timestamp ≤ opts.retentionHours * 60 * 60 := by
    intro p hp
    have := List.of_mem_filter hp
    simp only [decide_eq_true_eq, not_lt] at this
    rw [hcut] at this
    linarith
  have handAf : (afterAge.map Prod.fst).Nodup :=
    hnd.sublist ((List.filter_sublist m).map Prod.fst)
  by_cases hsz : opts.maxHistorySize < afterAge.length
  · rw [if_pos hsz]
    set entries := afterAge.mergeSort (fun a b => a.2.timestamp ≤ b.2.timestamp) with hent
    have hperm : entries.Perm afterAge := List.mergeSort_perm afterAge _
    have hentnd : (entries.map Prod.fst).Nodup :=
      ((hperm.map Prod.fst).nodup_iff).mpr handAf
    set toDelete := entries.take (afterAge.length - opts.maxHistorySize) with hdel
    have hdelnd : (toDelete.map Prod.fst).Nodup :=
      hentnd.sublist ((List.take_sublist _ entries).map Prod.fst)
    have hdelsub : ∀ p ∈ toDelete, p.1 ∈ afterAge.map Prod.fst := by
      intro p hp
      have hpe : p ∈ entries := (List.take_sublist _ entries).mem hp
      exact List.mem_map_of_mem Prod.fst (hperm.mem_iff.mp hpe)
    have hdellen : toDelete.length = afterAge.length - opts.maxHistorySize := by
      rw [hdel, List.length_take, hperm.length_eq]
      exact min_eq_left (Nat.sub_le _ _)
    constructor
    · rw [foldl_eraseP_length toDelete afterAge hdelnd handAf hdelsub, hdellen]
      omega
    · intro p hp
      exact hage p ((foldl_eraseP_sublist toDelete afterAge).mem hp)
  · rw [if_neg hsz]
    exact ⟨Nat.le_of_not_lt hsz, hage⟩

/-- C2 witness: a three-entry map with `maxHistorySize = 1`,
`retentionHours = 1`, pruned at `now = 4000`. -/
theorem c2_prune_bounds_witness :
    (pruneOldHeadlines
        [("a", ⟨(), 5⟩), ("b", ⟨(), 10⟩), ("c", ⟨(), 1000⟩)]
        ⟨(0.85 : ℝ), 1, 1⟩ 4000).length ≤ 1 :=
  (c2_prune_bounds [("a", ⟨(), 5⟩), ("b", ⟨(), 10⟩), ("c", ⟨(), 1000⟩)]
    ⟨(0.85 : ℝ), 1, 1⟩ 4000 (by decide)).1

/-! ## NewsBot scheduler, from `src/core/NewsBot.js` -/

/-- What the scheduler sees of a registered endpoint: its name, runtime
weight and enabled flag (`BaseEndpoint.getWeight` / `isEndpointEnabled`). -/
structure Endpoint where
  name : String
  weight : ℚ
  enabled : Bool
deriving Repr, DecidableEq

/-- `NewsBot.getEnabledEndpoints()`. -/
def getEnabledEndpoints (endpoints : List Endpoint) : List Endpoint :=
  endpoints.filter (fun e => e.enabled)

/-- `reduce((sum, endpoint) => sum + endpoint.getWeight(), 0)`. -/
def totalWeight (endpoints : List Endpoint) : ℚ :=
  endpoints.foldl (fun sum e => sum + e.weight) 0

/-- The `for` loop of `selectRandomEndpoint`: subtract each weight from the
running draw and return the first endpoint at which it reaches `≤ 0`. -/
def selectWalk : List Endpoint → ℚ → Option Endpoint
  | [], _ => none
  | e :: rest, random =>
    let random' := random - e.weight
    if random' ≤ 0 then some e else selectWalk rest random'

/-- `NewsBot.selectRandomEndpoint()`, with the `Math.random()` draw `u`
(uniform in `[0,1)`) made explicit: `random = u * totalWeight`; if no
endpoint is enabled the result is `null`; if the walk falls through, the
code falls back to the first enabled endpoint. -/
def selectRandomEndpoint (endpoints : List Endpoint) (u : ℚ) : Option Endpoint :=
  let enabledEndpoints := getEnabledEndpoints endpoints
  if enabledEndpoints.isEmpty then none
  else
    match selectWalk enabledEndpoints (u * totalWeight enabledEndpoints) with
    | some e => some e
    | none => enabledEndpoints.head?

/-- Scheduler interval state (`NewsBot` constructor fields). -/
structure CycleState where
  baseIntervalMinutes : ℚ
  currentIntervalMinutes : ℚ
  maxIntervalMinutes : ℚ
  intervalIncrementSeconds : ℚ
  lastSuccessfulPost : ℚ
deriving Repr, DecidableEq

/-- `NewsBot.onSuccessfulPost()`: record the time and reset the interval to
base (the guard only avoids a redundant log line). -/
def onSuccessfulPost (s : CycleState) (now : ℚ) : CycleState :=
  let s' := { s with lastSuccessfulPost := now }
  if s'.currentIntervalMinutes ≠ s'.baseIntervalMinutes then
    { s' with currentIntervalMinutes := s'.baseIntervalMinutes }
  else s'

/-- `NewsBot.onNoPostFound()`: raise the interval by
`intervalIncrementSeconds / 60` minutes, capped at `maxIntervalMinutes`. -/
def onNoPostFound (s : CycleState) : CycleState :=
  let incrementMinutes := s.intervalIncrementSeconds / 60
  let newInterval := min (s.currentIntervalMinutes + incrementMinutes) s.maxIntervalMinutes
  if newInterval > s.currentIntervalMinutes then
    { s with currentIntervalMinutes := newInterval }
  else s

/-- The body of the `setTimeout` callback in `scheduleNextFetch`:
`fetchNews()` produced `fetched`; when an item is found, `sendNews` is
awaited and its boolean result `sendOk` is DISCARDED — `onSuccessfulPost()`
runs unconditionally afterwards; when nothing is found, `onNoPostFound()`
runs.  (The `catch` path, which changes nothing, is not needed here.) -/
def runNewsCycle (s : CycleState) (fetched : Option String) (sendOk : Bool)
    (now : ℚ) : CycleState :=
  match fetched, sendOk with
  | some _, _ => onSuccessfulPost s now
  | none, _ => onNoPostFound s

/-! ## Claim C4 -/

/-- C4 counterexample: a cycle that yields a candidate but whose delivery
reports failure (`sendToChannels` returned `false`) still resets the interval
to base — `sendNews`'s return value is ignored by the news-loop callback.
Start at `currentInterval = 10`, `base = 5`: after a yielded-but-undelivered
cycle the interval is 5, refuting "reset ... only on a cycle that both yields
a candidate and delivers it successfully". -/
theorem c4_reset_despite_failed_delivery :
    (runNewsCycle ⟨5, 10, 60, 30, 0⟩ (some "item") false 1000).currentIntervalMinutes
      = (⟨5, 10, 60, 30, 0⟩ : CycleState).baseIntervalMinutes
    ∧ (⟨5, 10, 60, 30, 0⟩ : CycleState).currentIntervalMinutes
      ≠ (⟨5, 10, 60, 30, 0⟩ : CycleState).baseIntervalMinutes := by
  constructor
  · norm_num [runNewsCycle, onSuccessfulPost]
  · norm_num

/-- C4 (amended): with `currentInterval ≤ maxInterval` and a positive
increment: after an empty cycle the interval becomes
`min (current + increment/60) max` — strictly greater than before whenever
`current < max`, never exceeding `max`, and equal to exactly
`current + increment/60` whenever that does not overshoot the cap; after any
cycle that yields a candidate, the interval is reset exactly to base
regardless of the delivery result `sendOk` (the code ignores it). -/
theorem c4_adaptive_interval (s : CycleState) (item : String) (sendOk : Bool) (now : ℚ)
    (hc : s.currentIntervalMinutes ≤ s.maxIntervalMinutes)
    (hi : 0 < s.intervalIncrementSeconds) :
    (runNewsCycle s none sendOk now).currentIntervalMinutes
      = min (s.currentIntervalMinutes + s.intervalIncrementSeconds / 60) s.maxIntervalMinutes
    ∧ (s.currentIntervalMinutes < s.maxIntervalMinutes →
        s.currentIntervalMinutes < (runNewsCycle s none sendOk now).currentIntervalMinutes)
    ∧ (runNewsCycle s none sendOk now).currentIntervalMinutes ≤ s.maxIntervalMinutes
    ∧ (s.currentIntervalMinutes + s.intervalIncrementSeconds / 60 ≤ s.maxIntervalMinutes →
        (runNewsCycle s none sendOk now).currentIntervalMinutes
          = s.currentIntervalMinutes + s.intervalIncrementSeconds / 60)
    ∧ (runNewsCycle s (some item) sendOk now).currentIntervalMinutes
        = s.baseIntervalMinutes := by
  have hinc : 0 < s.intervalIncrementSeconds / 60 := by positivity
  have hempty : (runNewsCycle s none sendOk now).currentIntervalMinutes
      = min (s.currentIntervalMinutes + s.intervalIncrementSeconds / 60)
          s.maxIntervalMinutes := by
    show (onNoPostFound s).currentIntervalMinutes = _
    unfold onNoPostFound
    rcases lt_or_eq_of_le hc with hlt | heq
    · rw [if_pos]
      exact lt_min (by linarith) hlt
    · rw [if_neg, heq, min_eq_right (by linarith)]
      simp only [not_lt, heq]
      exact min_le_right _ _
  refine ⟨hempty, ?_, ?_, ?_, ?_⟩
  · intro hlt
    rw [hempty]
    exact lt_min (by linarith) hlt
  · rw [hempty]
    exact min_le_right _ _
  · intro hle
    rw [hempty]
    exact min_eq_left hle
  · show (onSuccessfulPost s now).currentIntervalMinutes = s.baseIntervalMinutes
    unfold onSuccessfulPost
    by_cases h : s.currentIntervalMinutes = s.baseIntervalMinutes
    · simp [h]
    · simp [h]

/-- C4 witness: base 5, current 10, max 60, increment 30 s.  An empty cycle
moves the interval to 10.5; a yielded cycle (even with `sendOk = false`)
resets it to 5. -/
theorem c4_adaptive_interval_witness :
    (runNewsCycle ⟨5, 10, 60, 30, 0⟩ none false 1000).currentIntervalMinutes
      = min ((10 : ℚ) + 30 / 60) 60
    ∧ (10 : ℚ) < (runNewsCycle ⟨5, 10, 60, 30, 0⟩ none false 1000).currentIntervalMinutes
    ∧ (runNewsCycle ⟨5, 10, 60, 30, 0⟩ none false 1000).currentIntervalMinutes ≤ 60
    ∧ (runNewsCycle ⟨5, 10, 60, 30, 0⟩ none false 1000).currentIntervalMinutes
        = 10 + 30 / 60
    ∧ (runNewsCycle ⟨5, 10, 60, 30, 0⟩ (some "item") false 1000).currentIntervalMinutes = 5 :=
  ⟨(c4_adaptive_interval ⟨5, 10, 60, 30, 0⟩ "item" false 1000 (by norm_num) (by norm_num)).1,
   (c4_adaptive_interval ⟨5, 10, 60, 30, 0⟩ "item" false 1000 (by norm_num) (by norm_num)).2.1
     (by norm_num),
   (c4_adaptive_interval ⟨5, 10, 60, 30, 0⟩ "item" false 1000 (by norm_num)
     (by norm_num)).2.2.1,
   (c4_adaptive_interval ⟨5, 10, 60, 30, 0⟩ "item" false 1000 (by norm_num)
     (by norm_num)).2.2.2.1 (by norm_num),
   (c4_adaptive_interval ⟨5, 10, 60, 30, 0⟩ "item" false 1000 (by norm_num)
     (by norm_num)).2.2.2.2⟩

/-! ## Claim C6 -/

/-- C6 counterexample: `Math.random()` can return exactly 0 (its range is
`[0,1)`), and then `random = 0`; at the first enabled endpoint the walk
computes `0 - 0 ≤ 0` and returns it even though its weight is 0.  With
enabled endpoints of weights `[0, 1]` and draw `u = 0`, the zero-weight
endpoint is selected, refuting "never selects a source whose weight is 0". -/
theorem c6_zero_weight_selected :
    selectRandomEndpoint [⟨"a", 0, true⟩, ⟨"b", 1, true⟩] 0
      = some ⟨"a", 0, true⟩
    ∧ (⟨"a", 0, true⟩ : Endpoint).weight = 0 := by
  constructor
  · norm_num [selectRandomEndpoint, getEnabledEndpoints, totalWeight, selectWalk]
  · rfl

theorem selectWalk_pos_weight (l : List Endpoint) :
    ∀ r : ℚ, (∀ e ∈ l, 0 ≤ e.weight) → 0 < r → r ≤ totalWeight l →
      ∃ e, selectWalk l r = some e ∧ e ∈ l ∧ 0 < e.weight := by
  have htot : ∀ (l' : List Endpoint) (a : ℚ),
      l'.foldl (fun sum e => sum + e.weight) a = a + l'.foldl (fun sum e => sum + e.weight) 0 := by
    intro l'
    induction l' with
    | nil => intro a; simp
    | cons e rest ih =>
      intro a
      simp only [List.foldl_cons]
      rw [ih (a + e.weight), ih (0 + e.weight)]
      ring
  induction l with
  | nil =>
    intro r _ hr htotle
    exfalso
    simp only [totalWeight, List.foldl_nil] at htotle
    linarith
  | cons e rest ih =>
    intro r hw hr htotle
    simp only [selectWalk]
    by_cases hle : r - e.weight ≤ 0
    · refine ⟨e, by rw [if_pos hle], List.mem_cons_self _ _, ?_⟩
      have := hw e (List.mem_cons_self _ _)
      linarith
    · rw [if_neg hle]
      push_neg at hle
      have hrest : r - e.weight ≤ totalWeight rest := by
        have : totalWeight (e :: rest) = e.weight + totalWeight rest := by
          simp only [totalWeight, List.foldl_cons, zero_add]
          exact htot rest e.weight
        linarith
      obtain ⟨e', he1, he2, he3⟩ :=
        ih (r - e.weight) (fun x hx => hw x (List.mem_cons_of_mem _ hx)) hle hrest
      exact ⟨e', he1, List.mem_cons_of_mem _ he2, he3⟩

/-- C6 (amended): the selection is the cumulative-weight walk of the code
(`random = u * totalWeight`, subtract weights until `random ≤ 0`), `null`
exactly when no endpoint is enabled, and — provided the uniform draw is
strictly positive (`0 < u < 1`) and some enabled endpoint has positive
total weight — the selected endpoint is an enabled one with strictly
positive weight.  (When the draw is exactly 0, or all enabled weights are 0,
the first enabled endpoint is selected even if its weight is 0.) -/
theorem c6_weighted_selection (endpoints : List Endpoint) (u : ℚ)
    (hw : ∀ e ∈ endpoints, 0 ≤ e.weight)
    (hu0 : 0 < u) (hu1 : u < 1) :
    (getEnabledEndpoints endpoints = [] → selectRandomEndpoint endpoints u = none)
    ∧ (0 < totalWeight (getEnabledEndpoints endpoints) →
        (selectRandomEndpoint endpoints u).isSome = true
        ∧ ∀ e, selectRandomEndpoint endpoints u = some e →
            e ∈ getEnabledEndpoints endpoints ∧ 0 < e.weight) := by
  constructor
  · intro hemp
    unfold selectRandomEndpoint
    rw [if_pos (by simp [hemp])]
  · intro htot
    have hwe : ∀ e ∈ getEnabledEndpoints endpoints, 0 ≤ e.weight := fun e he =>
      hw e (List.mem_of_mem_filter he)
    have hne : ¬(getEnabledEndpoints endpoints).isEmpty := by
      intro h
      rw [List.isEmpty_iff] at h
      rw [h] at htot
      simp [totalWeight] at htot
    obtain ⟨e, he1, he2, he3⟩ := selectWalk_pos_weight (getEnabledEndpoints endpoints)
      (u * totalWeight (getEnabledEndpoints endpoints)) hwe
      (by positivity)
      (by nlinarith)
    have hsel : selectRandomEndpoint endpoints u = some e := by
      unfold selectRandomEndpoint
      rw [if_neg hne, he1]
    constructor
    · rw [hsel]; rfl
    · intro e' he'
      rw [hsel] at he'
      cases he'
      exact ⟨he2, he3⟩

/-- C6 witness: weights `[3, 1]`, draw `u = 1/2`: the walk computes
`random = 2`, subtracts 3, reaches `≤ 0` and selects the weight-3 endpoint,
which is enabled and has positive weight. -/
theorem c6_weighted_selection_witness :
    selectRandomEndpoint [⟨"a", 3, true⟩, ⟨"b", 1, true⟩] (1/2) = some ⟨"a", 3, true⟩
    ∧ (⟨"a", 3, true⟩ : Endpoint) ∈ getEnabledEndpoints [⟨"a", 3, true⟩, ⟨"b", 1, true⟩]
    ∧ 0 < (⟨"a", 3, true⟩ : Endpoint).weight :=
  have hsel : selectRandomEndpoint [⟨"a", 3, true⟩, ⟨"b", 1, true⟩] (1/2)
      = some ⟨"a", 3, true⟩ := by
    norm_num [selectRandomEndpoint, getEnabledEndpoints, totalWeight, selectWalk]
  have hprop := ((c6_weighted_selection [⟨"a", 3, true⟩, ⟨"b", 1, true⟩] (1/2)
      (by intro e he; fin_cases he <;> norm_num)
      (by norm_num) (by norm_num)).2
      (by norm_num [getEnabledEndpoints, totalWeight])).2 ⟨"a", 3, true⟩ hsel
  ⟨hsel, hprop.1, hprop.2⟩

/-! ## MarketauxEndpoint, from `src/endpoints/MarketauxEndpoint.js` -/

/-- Fields of a fetched Marketaux article that the filter pipeline reads.
`Option String` fields model JS truthiness: `none` stands for an absent or
empty (falsy) string. -/
structure MArticle where
  uuid : Option String
  title : Option String
  description : Option String
  url : Option String
  language : Option String
  publishedAtMs : ℚ

/-- The fixed indicator list of `isEnglishContent`. -/
def englishIndicators : List String :=
  ["the", "and", "for", "are", "with", "that", "this", "from", "they", "have",
   "been", "their", "said", "each", "which", "what", "will", "there", "could"]

/-- `MarketauxEndpoint.isEnglishContent(article)`: reject on an explicit
non-`en` language tag; otherwise lowercase ``` `${title} ${description}` ```,
pass anything whose trimmed length is below 10, and else require at least two
indicator words, each detected by `includes(" word ")` or
`startsWith("word ")`. -/
def isEnglishContent (article : MArticle) : Bool :=
  if article.language.elim false (fun l => l != "en") then false
  else
    let textToCheck :=
      jsToLowerCase ((article.title.getD "") ++ " " ++ (article.description.getD ""))
    if (jsTrim textToCheck).length < 10 then true
    else
      let englishWordCount := englishIndicators.foldl
        (fun count word =>
          count + (if strIncludes textToCheck (" " ++ word ++ " ")
                      || strStartsWith textToCheck (word ++ " ") then 1 else 0)) 0
      2 ≤ englishWordCount

/-- The occurrence test `isEnglishContent` actually applies to one indicator
word: surrounded by spaces somewhere in the text, or a prefix followed by a
space. -/
def occursDelimited (text word : String) : Bool :=
  strIncludes text (" " ++ word ++ " ") || strStartsWith text (word ++ " ")

/-- Space-separated words of a string — the plain reading of "appears as a
whole word" used to state claim C8. -/
def wordsOf (s : String) : List String :=
  ((s.data.splitOn ' ').filter (fun w => ¬w.isEmpty)).map (fun w => ⟨w⟩)

theorem foldl_count_eq_filter_length (p : String → Bool) (l : List String) :
    ∀ n : ℕ, l.foldl (fun count w => count + (if p w then 1 else 0)) n
      = n + (l.filter p).length := by
  induction l with
  | nil => intro n; simp
  | cons w rest ih =>
    intro n
    cases h : p w with
    | true => simp [h, ih, Nat.add_assoc, Nat.add_comm 1]
    | false => simp [h, ih]

/-! ## Claim C8 -/

/-- C8 counterexample: with no language tag, title `"zz"` and description
`"qq the and"`, the combined text `"zz qq the and"` (length 13 ≥ 10)
contains both `"the"` and `"and"` as whole words, so the claim predicts the
article passes; but the code only counts an indicator when it is surrounded
by spaces or is a prefix — `"and"` at the very end of the text is missed, the
count is 1, and `isEnglishContent` rejects the article. -/
theorem c8_whole_word_at_end_missed :
    isEnglishContent ⟨some "u1", some "zz", some "qq the and", some "https://x/1", none, 0⟩
      = false
    ∧ 2 ≤ (englishIndicators.filter (fun w => w ∈ wordsOf "zz qq the and")).length
    ∧ ¬((jsTrim "zz qq the and").length < 10) :=
  ⟨by decide, by decide, by decide⟩

/-- C8 (amended): `isEnglishContent` accepts an article iff no explicit
language tag differs from `"en"`, and the lowercased combined
title-space-description either has trimmed length below 10 or contains at
least 2 of the fixed indicator words, where an indicator only counts when it
occurs surrounded by spaces or as a prefix followed by a space (an occurrence
at the very end of the text, or flanked by punctuation, does not count). -/
theorem c8_language_filter (a : MArticle) :
    isEnglishContent a = true ↔
      ((a.language = none ∨ a.language = some "en")
        ∧ ((jsTrim (jsToLowerCase ((a.title.getD "") ++ " " ++ (a.description.getD "")))).length < 10
            ∨ 2 ≤ (englishIndicators.filter
                (fun w => occursDelimited
                  (jsToLowerCase ((a.title.getD "") ++ " " ++ (a.description.getD ""))) w)).length)) := by
  have hbody : ∀ text : String,
      (if (jsTrim text).length < 10 then true
        else decide (2 ≤ englishIndicators.foldl
          (fun count word =>
            count + (if strIncludes text (" " ++ word ++ " ")
                        || strStartsWith text (word ++ " ") then 1 else 0)) 0)) = true
      ↔ ((jsTrim text).length < 10
          ∨ 2 ≤ (englishIndicators.filter (fun w => occursDelimited text w)).length) := by
    intro text
    by_cases hshort : (jsTrim text).length < 10
    · simp [hshort]
    · rw [if_neg hshort,
        foldl_count_eq_filter_length
          (fun word => strIncludes text (" " ++ word ++ " ")
            || strStartsWith text (word ++ " ")) englishIndicators 0]
      simp only [occursDelimited, Nat.zero_add, decide_eq_true_eq]
      exact (or_iff_right hshort).symm
  unfold isEnglishContent
  cases hl : a.language with
  | none =>
    simp only [Option.elim, Bool.false_eq_true, if_false]
    rw [hbody]
    simp
  | some l =>
    by_cases hen : l = "en"
    · subst hen
      simp only [Option.elim, bne_self_eq_false, Bool.false_eq_true, if_false]
      rw [hbody]
      simp
    · have : (l != "en") = true := by simpa using hen
      simp only [Option.elim, this, if_true]
      simp [hen]

/-- C8 witness: an untagged article whose text `"the cat and the hat"`
contains two delimited indicators passes the filter. -/
theorem c8_language_filter_witness :
    isEnglishContent ⟨some "u2", some "the cat and the hat", none, some "https://x/2", none, 0⟩
      = true :=
  (c8_language_filter
    ⟨some "u2", some "the cat and the hat", none, some "https://x/2", none, 0⟩).mpr
    (by decide)

/-! ## Marketaux daily quota (claim C5) -/

/-- `this.dailyRequestLimit = 100`. -/
def dailyRequestLimit : ℕ := 100

/-- Adapter-owned quota state (`requestsToday`, `lastRequestDate`) together
with the `isEnabled` flag and token presence checked at the top of
`fetchUpdate`. -/
structure MarketauxState where
  isEnabled : Bool
  hasToken : Bool
  requestsToday : ℕ
  lastRequestDate : String
deriving Repr, DecidableEq

/-- The state mutation inside `canMakeRequest()`: recompute today's date and
reset the counter if the calendar date changed. -/
def canMakeRequestState (s : MarketauxState) (today : String) : MarketauxState :=
  if today ≠ s.lastRequestDate then
    { s with requestsToday := 0, lastRequestDate := today }
  else s

/-- The boolean returned by `canMakeRequest()`:
`this.requestsToday < this.dailyRequestLimit` after the possible reset. -/
def canMakeRequest (s : MarketauxState) (today : String) : Bool :=
  (canMakeRequestState s today).requestsToday < dailyRequestLimit

/-- `incrementRequestCount()` (the persistence call is a side effect only). -/
def incrementRequestCount (s : MarketauxState) : MarketauxState :=
  { s with requestsToday := s.requestsToday + 1 }

/-- The shape returned to the scheduler by an endpoint. -/
structure NewsItem where
  title : String
  url : String
  description : Option String
deriving Repr, DecidableEq

/-- The `for (const article of allArticles)` loop of
`MarketauxEndpoint.fetchUpdate`: skip articles missing `uuid`/`title`/`url`,
older than 24 h, or already seen; mark-and-skip non-English and near-duplicate
articles; otherwise mark seen and return the formatted item.  The similarity
collaborator is abstracted as the verdict function `simIsSimilar` (claim C3
treats `checkSimilarity` itself). -/
def marketauxProcessArticles (nowMs : ℚ) (vecEnabled : Bool)
    (simIsSimilar : String → Bool) :
    DataManagerState → List MArticle → DataManagerState × Option NewsItem
  | dm, [] => (dm, none)
  | dm, a :: rest =>
    match a.uuid, a.title, a.url with
    | some articleId, some title, some url =>
      if (nowMs - a.publishedAtMs) / (1000 * 60 * 60) > 24 then
        marketauxProcessArticles nowMs vecEnabled simIsSimilar dm rest
      else if hasSeenItem dm "marketaux" articleId then
        marketauxProcessArticles nowMs vecEnabled simIsSimilar dm rest
      else if ¬isEnglishContent a then
        marketauxProcessArticles nowMs vecEnabled simIsSimilar
          (markItemAsSeen dm "marketaux" articleId (nowMs / 1000)) rest
      else if vecEnabled && simIsSimilar title then
        marketauxProcessArticles nowMs vecEnabled simIsSimilar
          (markItemAsSeen dm "marketaux" articleId (nowMs / 1000)) rest
      else
        (markItemAsSeen dm "marketaux" articleId (nowMs / 1000),
          some ⟨"Title: " ++ title, url,
            some ("Description: " ++ (a.description.getD "No description available"))⟩)
    | _, _, _ => marketauxProcessArticles nowMs vecEnabled simIsSimilar dm rest

/-- Result of one `MarketauxEndpoint.fetchUpdate()` call.
`networkAttempted` records whether `axios.get` was issued. -/
structure MarketauxFetchResult where
  state : MarketauxState
  dm : DataManagerState
  item : Option NewsItem
  networkAttempted : Bool

/-- `MarketauxEndpoint.fetchUpdate()`: bail out when disabled or without a
token; bail out (without touching the network) when `canMakeRequest()` is
false; otherwise issue the request — on transport failure the `catch` block
runs and the request count is NOT incremented; on success
`incrementRequestCount()` runs and the article loop scans the batch. -/
def marketauxFetchUpdate (s : MarketauxState) (dm : DataManagerState) (today : String)
    (nowMs : ℚ) (vecEnabled : Bool) (simIsSimilar : String → Bool)
    (net : Except Unit (List MArticle)) : MarketauxFetchResult :=
  if ¬(s.isEnabled && s.hasToken) then ⟨s, dm, none, false⟩
  else
    let s1 := canMakeRequestState s today
    if ¬canMakeRequest s today then ⟨s1, dm, none, false⟩
    else
      match net with
      | .error _ => ⟨s1, dm, none, true⟩
      | .ok allArticles =>
        let s2 := incrementRequestCount s1
        let r := marketauxProcessArticles nowMs vecEnabled simIsSimilar dm allArticles
        ⟨s2, r.1, r.2, true⟩

/-! ## Claim C5 -/

/-- C5: (1) with the daily counter at the limit on the same calendar date,
`fetchUpdate` returns `null` with no network request and the whole state —
counter included — unchanged; (2) a date change resets the counter to 0 (and
the date is recomputed from the `today` argument of every check); (3) on a
transport-level failure the counter is not incremented; (4) on a completed
network call it is incremented by exactly one. -/
theorem c5_daily_quota (s : MarketauxState) (dm : DataManagerState) (today : String)
    (nowMs : ℚ) (vec : Bool) (sim : String → Bool) (net : Except Unit (List MArticle)) :
    (s.lastRequestDate = today → dailyRequestLimit ≤ s.requestsToday →
      marketauxFetchUpdate s dm today nowMs vec sim net = ⟨s, dm, none, false⟩)
    ∧ (today ≠ s.lastRequestDate →
        (canMakeRequestState s today).requestsToday = 0
        ∧ (canMakeRequestState s today).lastRequestDate = today)
    ∧ (s.isEnabled = true → s.hasToken = true → canMakeRequest s today = true →
        (∀ e : Unit,
          (marketauxFetchUpdate s dm today nowMs vec sim (.error e)).state.requestsToday
            = (canMakeRequestState s today).requestsToday
          ∧ (marketauxFetchUpdate s dm today nowMs vec sim (.error e)).networkAttempted
            = true)
        ∧ ∀ arts : List MArticle,
          (marketauxFetchUpdate s dm today nowMs vec sim (.ok arts)).state.requestsToday
            = (canMakeRequestState s today).requestsToday + 1) := by
  refine ⟨?_, ?_, ?_⟩
  · intro hdate hlim
    unfold marketauxFetchUpdate
    have hstate : canMakeRequestState s today = s := by
      unfold canMakeRequestState
      rw [if_neg (by simp [hdate])]
    have hcan : canMakeRequest s today = false := by
      unfold canMakeRequest
      rw [hstate]
      simp only [decide_eq_false_iff_not, not_lt]
      exact hlim
    by_cases hen : s.isEnabled && s.hasToken
    · rw [if_neg (by simp [hen]), hstate, if_pos (by simp [hcan])]
    · rw [if_pos (by simp_all)]
  · intro hdate
    unfold canMakeRequestState
    rw [if_pos hdate]
    exact ⟨rfl, rfl⟩
  · intro hen htok hcan
    constructor
    · intro e
      unfold marketauxFetchUpdate
      rw [if_neg (by simp [hen, htok]), if_neg (by simp [hcan])]
      exact ⟨rfl, rfl⟩
    · intro arts
      unfold marketauxFetchUpdate
      rw [if_neg (by simp [hen, htok]), if_neg (by simp [hcan])]
      rfl

/-- C5 witness: at the limit (counter 100 on the same date) `fetchUpdate`
is a no-op with no network call; a fresh date resets the counter; below the
limit, a failed transport leaves the counter at 7 while a completed call
moves it to 8. -/
theorem c5_daily_quota_witness :
    marketauxFetchUpdate ⟨true, true, 100, "2026-10-11"⟩ ⟨[], []⟩ "2026-10-11" 0 false
        (fun _ => false) (.ok [])
      = ⟨⟨true, true, 100, "2026-10-11"⟩, ⟨[], []⟩, none, false⟩
    ∧ ((canMakeRequestState ⟨true, true, 100, "2026-10-11"⟩ "2026-10-12").requestsToday = 0
        ∧ (canMakeRequestState ⟨true, true, 100, "2026-10-11"⟩ "2026-10-12").lastRequestDate
          = "2026-10-12")
    ∧ ((marketauxFetchUpdate ⟨true, true, 7, "2026-10-11"⟩ ⟨[], []⟩ "2026-10-11" 0 false
          (fun _ => false) (.error ())).state.requestsToday
        = (canMakeRequestState ⟨true, true, 7, "2026-10-11"⟩ "2026-10-11").requestsToday
        ∧ (marketauxFetchUpdate ⟨true, true, 7, "2026-10-11"⟩ ⟨[], []⟩ "2026-10-11" 0 false
          (fun _ => false) (.error ())).networkAttempted = true)
    ∧ (marketauxFetchUpdate ⟨true, true, 7, "2026-10-11"⟩ ⟨[], []⟩ "2026-10-11" 0 false
          (fun _ => false) (.ok [])).state.requestsToday
        = (canMakeRequestState ⟨true, true, 7, "2026-10-11"⟩ "2026-10-11").requestsToday + 1 :=
  ⟨(c5_daily_quota ⟨true, true, 100, "2026-10-11"⟩ ⟨[], []⟩ "2026-10-11" 0 false
      (fun _ => false) (.ok [])).1 rfl (by decide),
   (c5_daily_quota ⟨true, true, 100, "2026-10-11"⟩ ⟨[], []⟩ "2026-10-12" 0 false
      (fun _ => false) (.ok [])).2.1 (by decide),
   ((c5_daily_quota ⟨true, true, 7, "2026-10-11"⟩ ⟨[], []⟩ "2026-10-11" 0 false
      (fun _ => false) (.error ())).2.2 rfl rfl (by decide)).1 (),
   ((c5_daily_quota ⟨true, true, 7, "2026-10-11"⟩ ⟨[], []⟩ "2026-10-11" 0 false
      (fun _ => false) (.ok [])).2.2 rfl rfl (by decide)).2 []⟩

/-! ## RedditEndpoint, from `src/endpoints/RedditEndpoint.js` -/

/-- Fields of one raw Reddit post read by `fetchFromSource`.  `Option String`
again models JS truthiness for the two URL fields. -/
structure RedditPost where
  id : String
  title : String
  createdUtc : ℚ
  author : String
  urlOverriddenByDest : Option String
  url : Option String

/-- `postData.url_overridden_by_dest || postData.url || ''`. -/
def redditEffectiveUrl (p : RedditPost) : String :=
  (p.urlOverriddenByDest.orElse (fun _ => p.url)).getD ""

/-- `RedditEndpoint.isUrlBanned(url)`: some configured keyword is a
substring of the lowercased URL (keywords lowercased too). -/
def isUrlBanned (bannedKeywords : List String) (url : String) : Bool :=
  bannedKeywords.any (fun keyword =>
    strIncludes (jsToLowerCase url) (jsToLowerCase keyword))

/-- The `for (const post of posts)` loop of
`RedditEndpoint.fetchFromSource(jsonUrl, author)`: skip posts older than the
24 h threshold or by the wrong author; a missing or banned URL is marked seen
and skipped; an already-seen post is skipped; a near-duplicate headline is
marked seen and skipped; the first surviving post is marked seen and
returned as `{ title, url }`.  `nowSec` stands for `Date.now() / 1000`
(the source floors the threshold to whole seconds; the claims do not depend
on that).  The similarity collaborator is abstracted as `simIsSimilar`. -/
def redditFetchFromSource (author : String) (bannedKeywords : List String)
    (vecEnabled : Bool) (simIsSimilar : String → Bool) (nowSec : ℚ) :
    DataManagerState → List RedditPost → DataManagerState × Option (String × String)
  | dm, [] => (dm, none)
  | dm, post :: rest =>
    let url := redditEffectiveUrl post
    if post.createdUtc < nowSec - 24 * 60 * 60 then
      redditFetchFromSource author bannedKeywords vecEnabled simIsSimilar nowSec dm rest
    else if author ≠ "any" ∧ post.author ≠ author then
      redditFetchFromSource author bannedKeywords vecEnabled simIsSimilar nowSec dm rest
    else if url = "" ∨ isUrlBanned bannedKeywords url = true then
      redditFetchFromSource author bannedKeywords vecEnabled simIsSimilar nowSec
        (markItemAsSeen dm "reddit" post.id nowSec) rest
    else if hasSeenItem dm "reddit" post.id then
      redditFetchFromSource author bannedKeywords vecEnabled simIsSimilar nowSec dm rest
    else if vecEnabled = true ∧ simIsSimilar post.title = true then
      redditFetchFromSource author bannedKeywords vecEnabled simIsSimilar nowSec
        (markItemAsSeen dm "reddit" post.id nowSec) rest
    else
      (markItemAsSeen dm "reddit" post.id nowSec, some (post.title, url))

/-! ### Seen-set monotonicity and loop lemmas -/

theorem mapHas_mapSet_mono {β : Type} (m : List (String × β)) (k k' : String) (v : β)
    (h : mapHas m k' = true) : mapHas (mapSet m k v) k' = true := by
  induction m with
  | nil => simp [mapHas, mapGet?] at h
  | cons p rest ih =>
    obtain ⟨k'', v''⟩ := p
    by_cases hk : k'' = k
    · subst hk
      simp only [mapSet, if_pos rfl]
      simp only [mapHas, List.any_cons] at h ⊢
      exact h
    · simp only [mapSet, if_neg hk]
      simp only [mapHas, List.any_cons] at h ⊢
      rcases Bool.or_eq_true_iff.mp h with h1 | h1
      · exact Bool.or_eq_true_iff.mpr (Or.inl h1)
      · exact Bool.or_eq_true_iff.mpr (Or.inr (ih h1))

theorem mapGet?_mapSet_ne {β : Type} (m : List (String × β)) (k k'' : String) (v : β)
    (h : k ≠ k'') : mapGet? (mapSet m k v) k'' = mapGet? m k'' := by
  have hbeq : (k == k'') = false := by simpa using h
  induction m with
  | nil => simp [mapSet, mapGet?, List.find?, hbeq]
  | cons p rest ih =>
    obtain ⟨k', v'⟩ := p
    by_cases hk : k' = k
    · subst hk
      simp only [mapSet, if_pos rfl, mapGet?, List.find?]
      rw [hbeq]
    · simp only [mapSet, if_neg hk, mapGet?, List.find?]
      cases hfind : (k' == k'') with
      | true => rfl
      | false => simpa [mapGet?] using ih

theorem hasSeenItem_markItemAsSeen_mono (s : DataManagerState) (n n' i j : String) (t : ℚ)
    (h : hasSeenItem s n i = true) :
    hasSeenItem (markItemAsSeen s n' j t) n i = true := by
  unfold hasSeenItem at h ⊢
  unfold markItemAsSeen
  by_cases hn : n' = n
  · subst hn
    rw [mapGet?_mapSet_self]
    simp only [Option.elim]
    cases hget : mapGet? s.seenItems n' with
    | none => rw [hget] at h; simp [Option.elim] at h
    | some m =>
      rw [hget] at h
      simp only [Option.elim] at h
      simp only [hget, Option.getD]
      exact mapHas_mapSet_mono m j i t h
  · rw [mapGet?_mapSet_ne _ _ _ _ hn]
    exact h

theorem redditFetch_preserves_seen (author : String) (banned : List String)
    (vec : Bool) (sim : String → Bool) (nowSec : ℚ) (n i : String) :
    ∀ (posts : List RedditPost) (dm : DataManagerState),
      hasSeenItem dm n i = true →
      hasSeenItem (redditFetchFromSource author banned vec sim nowSec dm posts).1 n i
        = true := by
  intro posts
  induction posts with
  | nil => intro dm h; exact h
  | cons post rest ih =>
    intro dm h
    simp only [redditFetchFromSource]
    split_ifs with h1 h2 h3 h4 h5
    · exact ih dm h
    · exact ih dm h
    · exact ih _ (hasSeenItem_markItemAsSeen_mono dm n "reddit" i post.id nowSec h)
    · exact ih dm h
    · exact ih _ (hasSeenItem_markItemAsSeen_mono dm n "reddit" i post.id nowSec h)
    · exact hasSeenItem_markItemAsSeen_mono dm n "reddit" i post.id nowSec h

theorem redditFetch_result_not_banned (author : String) (banned : List String)
    (vec : Bool) (sim : String → Bool) (nowSec : ℚ) :
    ∀ (posts : List RedditPost) (dm : DataManagerState) (t u : String),
      (redditFetchFromSource author banned vec sim nowSec dm posts).2 = some (t, u) →
      isUrlBanned banned u = false := by
  intro posts
  induction posts with
  | nil => intro dm t u h; simp [redditFetchFromSource] at h
  | cons post rest ih =>
    intro dm t u h
    simp only [redditFetchFromSource] at h
    split_ifs at h with h1 h2 h3 h4 h5
    · exact ih dm t u h
    · exact ih dm t u h
    · exact ih _ t u h
    · exact ih dm t u h
    · exact ih _ t u h
    · simp only [Option.some.injEq, Prod.mk.injEq] at h
      obtain ⟨ht, hu⟩ := h
      push_neg at h3
      rw [← hu]
      exact Bool.eq_false_iff.mpr h3.2

theorem redditFetch_append (author : String) (banned : List String)
    (vec : Bool) (sim : String → Bool) (nowSec : ℚ) :
    ∀ (l1 l2 : List RedditPost) (dm : DataManagerState),
      (redditFetchFromSource author banned vec sim nowSec dm l1).2 = none →
      redditFetchFromSource author banned vec sim nowSec dm (l1 ++ l2)
        = redditFetchFromSource author banned vec sim nowSec
            (redditFetchFromSource author banned vec sim nowSec dm l1).1 l2 := by
  intro l1
  induction l1 with
  | nil => intro l2 dm _; rfl
  | cons post rest ih =>
    intro l2 dm hnone
    simp only [redditFetchFromSource, List.cons_append] at hnone ⊢
    split_ifs at hnone ⊢ with h1 h2 h3 h4 h5
    all_goals first
      | exact ih l2 dm hnone
      | exact ih l2 _ hnone

/-! ## Claim C7 -/

/-- C7: for a fetched candidate whose effective URL contains a banned
substring (case-insensitively), reached by the batch loop (the posts before
it yielded nothing) and passing the recency and author filters that precede
the denylist check: the loop marks the candidate's id seen (and the mark
survives the rest of the batch), and neither this fetch nor any fetch of the
same batch from any store state ever returns a candidate with a banned URL —
in particular the banned candidate itself is never returned. -/
theorem c7_banned_url_marked_not_returned (author : String) (banned : List String)
    (vec : Bool) (sim : String → Bool) (nowSec : ℚ) (dm : DataManagerState)
    (pre post : List RedditPost) (p : RedditPost)
    (hpre : (redditFetchFromSource author banned vec sim nowSec dm pre).2 = none)
    (hrec : ¬(p.createdUtc < nowSec - 24 * 60 * 60))
    (hauth : ¬(author ≠ "any" ∧ p.author ≠ author))
    (hban : isUrlBanned banned (redditEffectiveUrl p) = true) :
    hasSeenItem
      (redditFetchFromSource author banned vec sim nowSec dm (pre ++ p :: post)).1
      "reddit" p.id = true
    ∧ (∀ dm' : DataManagerState, ∀ t u : String,
        (redditFetchFromSource author banned vec sim nowSec dm' (pre ++ p :: post)).2
          = some (t, u) →
        isUrlBanned banned u = false) := by
  constructor
  · rw [redditFetch_append author banned vec sim nowSec pre (p :: post) dm hpre]
    set dm1 := (redditFetchFromSource author banned vec sim nowSec dm pre).1
    simp only [redditFetchFromSource]
    rw [if_neg hrec, if_neg hauth, if_pos (Or.inr hban)]
    apply redditFetch_preserves_seen
    unfold markItemAsSeen hasSeenItem
    rw [mapGet?_mapSet_self]
    simp only [Option.elim]
    exact mapHas_mapSet_self _ _ _
  · intro dm' t u h
    exact redditFetch_result_not_banned author banned vec sim nowSec _ dm' t u h

/-- C7 witness: a fresh post whose URL is `https://OnlyFans.com/x` against the
banned keyword `"onlyfans"` (case-insensitive hit) is marked seen by the
batch loop. -/
theorem c7_banned_url_witness :
    hasSeenItem
      (redditFetchFromSource "any" ["onlyfans"] false (fun _ => false) 100000
        ⟨[], []⟩
        ([] ++ ⟨"p1", "Bad post", 99000, "alice", some "https://OnlyFans.com/x", none⟩
          :: [])).1
      "reddit" "p1" = true :=
  (c7_banned_url_marked_not_returned "any" ["onlyfans"] false (fun _ => false) 100000
    ⟨[], []⟩ [] []
    ⟨"p1", "Bad post", 99000, "alice", some "https://OnlyFans.com/x", none⟩
    rfl (by norm_num) (by simp) (by decide)).1

/-! ## EmbeddingService.cosineSimilarity and SimilarityChecker.checkSimilarity,
from `src/services/EmbeddingService.js` and `src/utils/SimilarityChecker.js` -/

/-- The `dotProduct` accumulator of the loop in `cosineSimilarity`. -/
def dotProduct : List ℝ → List ℝ → ℝ
  | a :: as, b :: bs => a * b + dotProduct as bs
  | _, _ => 0

/-- The `normA` / `normB` accumulators (sum of squares). -/
def normSq : List ℝ → ℝ
  | [] => 0
  | a :: as => a * a + normSq as

/-- `EmbeddingService.cosineSimilarity(vecA, vecB)`: 0 on a null argument or
length mismatch; one loop accumulates the dot product and both squared norms
(the guard makes the lengths equal); 0 when either norm is 0; otherwise
`dotProduct / (Math.sqrt(normA) * Math.sqrt(normB))`. -/
noncomputable def cosineSimilarity : Option (List ℝ) → Option (List ℝ) → ℝ
  | some a, some b =>
    if a.length ≠ b.length then 0
    else if normSq a = 0 ∨ normSq b = 0 then 0
    else dotProduct a b / (Real.sqrt (normSq a) * Real.sqrt (normSq b))
  | none, _ => 0
  | some _, none => 0

/-- One iteration of the `for (const [headline, data] of ...)` loop of
`checkSimilarity`: strictly improve `(maxSimilarity, mostSimilarHeadline)`. -/
noncomputable def simAccumulate (newEmbedding : List ℝ) (acc : ℝ × Option String)
    (p : String × HeadlineData (List ℝ)) : ℝ × Option String :=
  if cosineSimilarity (some newEmbedding) (some p.2.embedding) > acc.1 then
    (cosineSimilarity (some newEmbedding) (some p.2.embedding), some p.1)
  else acc

/-- The `{ isSimilar, similarity, similarHeadline }` object. -/
structure SimilarityResult where
  isSimilar : Bool
  similarity : ℝ
  similarHeadline : Option String

/-- `SimilarityChecker.checkSimilarity(newHeadline)`.  The embedding call is
made explicit: `.error` models a thrown exception (caught by the `catch`
block), `.ok none` a null embedding; on success the loop starts from
`maxSimilarity = 0`, `mostSimilarHeadline = null` and the result is similar
iff `maxSimilarity >= threshold`. -/
noncomputable def checkSimilarity (recentHeadlines : HeadlineMap (List ℝ))
    (similarityThreshold : ℝ) (embedResult : Except Unit (Option (List ℝ))) :
    SimilarityResult :=
  match embedResult with
  | .error _ => ⟨false, 0, none⟩
  | .ok none => ⟨false, 0, none⟩
  | .ok (some newEmbedding) =>
    let r := recentHeadlines.foldl (simAccumulate newEmbedding) (0, none)
    ⟨decide (r.1 ≥ similarityThreshold), r.1, r.2⟩

/-! ## Claim C9 -/

/-- C9: when the embedding provider fails — the call throws (`.error`, the
`catch` path) or returns null (`.ok none`) — `checkSimilarity` returns
`isSimilar = false`, `similarity = 0`, `similarHeadline = null`, for every
stored set and threshold: the check fails open and never rejects the
candidate. -/
theorem c9_embedding_failure_fail_open (stored : HeadlineMap (List ℝ)) (th : ℝ) :
    (∀ e : Unit, checkSimilarity stored th (.error e) = ⟨false, 0, none⟩)
    ∧ checkSimilarity stored th (.ok none) = ⟨false, 0, none⟩ :=
  ⟨fun _ => rfl, rfl⟩

/-! ## Claim C10 -/

theorem normSq_nonneg (l : List ℝ) : 0 ≤ normSq l := by
  induction l with
  | nil => simp [normSq]
  | cons a as ih =>
    simp only [normSq]
    nlinarith [sq_nonneg a]

/-- C10: `cosineSimilarity` is total and never divides by zero — it returns
exactly 0 when either argument is null, the lengths differ, or either norm
is zero, and in the remaining case the divisor
`sqrt(normA) * sqrt(normB)` is provably nonzero. -/
theorem c10_cosineSimilarity_safety (a b : List ℝ) :
    cosineSimilarity none (some b) = 0
    ∧ cosineSimilarity (some a) none = 0
    ∧ cosineSimilarity none none = 0
    ∧ (a.length ≠ b.length → cosineSimilarity (some a) (some b) = 0)
    ∧ (normSq a = 0 ∨ normSq b = 0 → cosineSimilarity (some a) (some b) = 0)
    ∧ (a.length = b.length → normSq a ≠ 0 → normSq b ≠ 0 →
        Real.sqrt (normSq a) * Real.sqrt (normSq b) ≠ 0
        ∧ cosineSimilarity (some a) (some b)
            = dotProduct a b / (Real.sqrt (normSq a) * Real.sqrt (normSq b))) := by
  refine ⟨rfl, rfl, rfl, ?_, ?_, ?_⟩
  · intro hlen
    simp only [cosineSimilarity]
    rw [if_pos hlen]
  · intro hnorm
    simp only [cosineSimilarity]
    by_cases hlen : a.length ≠ b.length
    · rw [if_pos hlen]
    · rw [if_neg hlen, if_pos hnorm]
  · intro hlen hna hnb
    have hapos : 0 < normSq a := lt_of_le_of_ne (normSq_nonneg a) (Ne.symm hna)
    have hbpos : 0 < normSq b := lt_of_le_of_ne (normSq_nonneg b) (Ne.symm hnb)
    have hsdiv : 0 < Real.sqrt (normSq a) * Real.sqrt (normSq b) :=
      mul_pos (Real.sqrt_pos.mpr hapos) (Real.sqrt_pos.mpr hbpos)
    refine ⟨ne_of_gt hsdiv, ?_⟩
    simp only [cosineSimilarity]
    rw [if_neg (by simp [hlen]), if_neg (by simp [hna, hnb])]

/-- C10 witness: vectors `[1]` and `[1]` pass every guard; the divisor
`sqrt 1 * sqrt 1` is nonzero and the result is the guarded quotient. -/
theorem c10_cosineSimilarity_safety_witness :
    Real.sqrt (normSq [(1 : ℝ)]) * Real.sqrt (normSq [(1 : ℝ)]) ≠ 0
    ∧ cosineSimilarity (some [(1 : ℝ)]) (some [(1 : ℝ)])
        = dotProduct [(1 : ℝ)] [(1 : ℝ)]
            / (Real.sqrt (normSq [(1 : ℝ)]) * Real.sqrt (normSq [(1 : ℝ)])) :=
  (c10_cosineSimilarity_safety [(1 : ℝ)] [(1 : ℝ)]).2.2.2.2.2 rfl
    (by norm_num [normSq]) (by norm_num [normSq])

/-! ## Claim C3 -/

/-- Invariants of the `checkSimilarity` loop, by induction over the stored
headlines with a generalized accumulator: the running maximum never
decreases, bounds every scanned similarity from above, and is either still
the initial accumulator or is the similarity of some scanned headline whose
text it recorded. -/
theorem simFold_spec (emb : List ℝ) :
    ∀ (stored : HeadlineMap (List ℝ)) (acc : ℝ × Option String),
      acc.1 ≤ (stored.foldl (simAccumulate emb) acc).1
      ∧ (∀ p ∈ stored,
          cosineSimilarity (some emb) (some p.2.embedding)
            ≤ (stored.foldl (simAccumulate emb) acc).1)
      ∧ ((stored.foldl (simAccumulate emb) acc) = acc
          ∨ ∃ p ∈ stored,
              (stored.foldl (simAccumulate emb) acc).1
                = cosineSimilarity (some emb) (some p.2.embedding)
              ∧ (stored.foldl (simAccumulate emb) acc).2 = some p.1) := by
  intro stored
  induction stored with
  | nil =>
    intro acc
    refine ⟨le_refl _, by simp, Or.inl rfl⟩
  | cons q rest ih =>
    intro acc
    simp only [List.foldl_cons]
    obtain ⟨ih1, ih2, ih3⟩ := ih (simAccumulate emb acc q)
    have hstep : acc.1 ≤ (simAccumulate emb acc q).1
        ∧ cosineSimilarity (some emb) (some q.2.embedding) ≤ (simAccumulate emb acc q).1
        ∧ (simAccumulate emb acc q = acc
            ∨ ((simAccumulate emb acc q).1
                  = cosineSimilarity (some emb) (some q.2.embedding)
                ∧ (simAccumulate emb acc q).2 = some q.1)) := by
      unfold simAccumulate
      by_cases h : cosineSimilarity (some emb) (some q.2.embedding) > acc.1
      · rw [if_pos h]
        exact ⟨le_of_lt h, le_refl _, Or.inr ⟨rfl, rfl⟩⟩
      · rw [if_neg h]
        push_neg at h
        exact ⟨le_refl _, h, Or.inl rfl⟩
    refine ⟨le_trans hstep.1 ih1, ?_, ?_⟩
    · intro p hp
      rcases List.mem_cons.mp hp with h | h
      · rw [h]
        exact le_trans hstep.2.1 ih1
      · exact ih2 p h
    · rcases ih3 with h | ⟨p, hpmem, hp1, hp2⟩
      · rcases hstep.2.2 with h2 | ⟨h2a, h2b⟩
        · exact Or.inl (h.trans h2)
        · exact Or.inr ⟨q, List.mem_cons_self _ _, by rw [h]; exact h2a,
            by rw [h]; exact h2b⟩
      · exact Or.inr ⟨p, List.mem_cons_of_mem _ hpmem, hp1, hp2⟩

/-- C3 counterexample: one stored headline `"A"` with embedding `[0, 1]`,
candidate embedding `[1, 0]`, cosine similarity 0.  `"A"` trivially achieves
the maximum similarity among stored headlines, but `mostSimilarHeadline` is
only updated on a STRICT improvement over the initial `maxSimilarity = 0`,
so the result carries `similarHeadline = null`, not `"A"` — refuting
"similarHeadline equals the stored headline achieving that maximum score". -/
theorem c3_similarHeadline_null_at_nonpositive_max :
    cosineSimilarity (some [(1 : ℝ), 0]) (some [(0 : ℝ), 1]) = 0
    ∧ (checkSimilarity [("A", ⟨[(0 : ℝ), 1], 0⟩)] (0.85 : ℝ)
        (.ok (some [1, 0]))).similarHeadline = none
    ∧ (checkSimilarity [("A", ⟨[(0 : ℝ), 1], 0⟩)] (0.85 : ℝ)
        (.ok (some [1, 0]))).similarHeadline ≠ some "A" := by
  have hcos : cosineSimilarity (some [(1 : ℝ), 0]) (some [(0 : ℝ), 1]) = 0 := by
    simp only [cosineSimilarity]
    rw [if_neg (by simp), if_neg (by norm_num [normSq])]
    norm_num [dotProduct]
  have hres : (checkSimilarity [("A", ⟨[(0 : ℝ), 1], 0⟩)] (0.85 : ℝ)
      (.ok (some [1, 0]))).similarHeadline = none := by
    unfold checkSimilarity
    simp only [List.foldl_cons, List.foldl_nil]
    unfold simAccumulate
    rw [hcos, if_neg (by norm_num)]
  exact ⟨hcos, hres, by rw [hres]; exact Option.noConfusion⟩

/-- C3 (amended): for a successfully embedded candidate and a threshold
`0 < t` (the configured default is 0.85 and `updateThreshold` clamps to
`[0,1]`): `isSimilar` is true iff some stored embedding has cosine
similarity `≥ t` with the candidate (equivalently, iff the maximum stored
similarity reaches `t`), and whenever `isSimilar` holds, `similarHeadline`
is a stored headline achieving that maximum and `similarity` is its score.
When no stored similarity is strictly positive, the reported similarity is
floored at 0 and `similarHeadline` is null. -/
theorem c3_check_similarity (stored : HeadlineMap (List ℝ)) (th : ℝ) (emb : List ℝ)
    (hth : 0 < th) :
    ((checkSimilarity stored th (.ok (some emb))).isSimilar = true
      ↔ ∃ p ∈ stored, th ≤ cosineSimilarity (some emb) (some p.2.embedding))
    ∧ ((checkSimilarity stored th (.ok (some emb))).isSimilar = true →
        ∃ p ∈ stored,
          (checkSimilarity stored th (.ok (some emb))).similarHeadline = some p.1
          ∧ (checkSimilarity stored th (.ok (some emb))).similarity
              = cosineSimilarity (some emb) (some p.2.embedding)
          ∧ ∀ q ∈ stored,
              cosineSimilarity (some emb) (some q.2.embedding)
                ≤ (checkSimilarity stored th (.ok (some emb))).similarity) := by
  obtain ⟨h1, h2, h3⟩ := simFold_spec emb stored (0, none)
  have hres : checkSimilarity stored th (.ok (some emb))
      = ⟨decide ((stored.foldl (simAccumulate emb) (0, none)).1 ≥ th),
          (stored.foldl (simAccumulate emb) (0, none)).1,
          (stored.foldl (simAccumulate emb) (0, none)).2⟩ := rfl
  rw [hres]
  simp only [decide_eq_true_eq, ge_iff_le]
  constructor
  · constructor
    · intro hle
      have hpos : 0 < (stored.foldl (simAccumulate emb) (0, none)).1 :=
        lt_of_lt_of_le hth hle
      rcases h3 with h | ⟨p, hpmem, hp1, hp2⟩
      · rw [h] at hpos
        exact absurd hpos (by norm_num)
      · exact ⟨p, hpmem, by rw [← hp1]; exact hle⟩
    · rintro ⟨p, hpmem, hple⟩
      exact le_trans hple (h2 p hpmem)
  · intro hle
    have hpos : 0 < (stored.foldl (simAccumulate emb) (0, none)).1 :=
      lt_of_lt_of_le hth hle
    rcases h3 with h | ⟨p, hpmem, hp1, hp2⟩
    · rw [h] at hpos
      exact absurd hpos (by norm_num)
    · exact ⟨p, hpmem, hp2, hp1, h2⟩

/-- C3 witness: stored `("A", [1])`, threshold `1/2`, candidate embedding
`[1]`: the cosine similarity is 1 ≥ 1/2, so the check reports similar. -/
theorem c3_check_similarity_witness :
    (checkSimilarity [("A", ⟨[(1 : ℝ)], 0⟩)] (1/2) (.ok (some [1]))).isSimilar = true :=
  (c3_check_similarity [("A", ⟨[(1 : ℝ)], 0⟩)] (1/2) [1] (by norm_num)).1.mpr
    ⟨("A", ⟨[(1 : ℝ)], 0⟩), by simp, by
      simp only [cosineSimilarity]
      rw [if_neg (by simp), if_neg (by norm_num [normSq])]
      norm_num [dotProduct, normSq, Real.sqrt_one]⟩
